import Mathlib

/-
  Verification development for the allocation-site and memory-access
  classification engine of the instrumentation-infra LLVM passes.

  The definitions below are a shallow embedding of:
    * llvm-passes/4.0.0/Allocs.cpp (+ include/builtin/Allocs.h):
      allocator registry, custom-descriptor parsing, allocation sites,
      size factors, constant size folding, and the constant-offset
      bounds oracle (computeSizeAndOffset / isInBoundsAccess);
    * llvm-passes/4.0.0/MemAccess.cpp (+ include/builtin/MemAccess.h):
      MemRead::Create / MemWrite::Create and MemAccessIterator;
    * llvm-passes/11.0.0/Analysis/MemAccess.cpp: MemAccess::get.

  Machine integers are modelled as Nat with explicit reduction modulo
  2^64 where the C++ performs uint64_t arithmetic (APInt of pointer
  width 64, uint64_t multiplication).
-/

namespace InstrInfra

/-- 2^64, the modulus of uint64_t / 64-bit APInt arithmetic. -/
def W : Nat := 2 ^ 64

/-- An LLVM IR value as seen by the size/length logic: either a
ConstantInt (with its zero-extended 64-bit numeric value obtained via
getZExtValue) or some non-constant value identified by an id. -/
inductive IRValue where
  | constInt (n : Nat)
  | sym (id : Nat)
deriving DecidableEq, Repr

namespace Allocs

/-- AllocInfo::AllocType from Allocs.h: bit-flag category of an
allocation-related function or site. -/
inductive AllocType where
  | Malloc
  | New
  | Calloc
  | StrDup
  | Realloc
  | Free
  | Delete
  | Alloca
  | Global
deriving DecidableEq, Repr

/-- The bit pattern of each AllocType constant (1 << 0 .. 1 << 8),
exactly as in Allocs.h. -/
def AllocType.bits : AllocType → Nat
  | .Malloc => 1
  | .New => 2
  | .Calloc => 4
  | .StrDup => 8
  | .Realloc => 16
  | .Free => 32
  | .Delete => 64
  | .Alloca => 128
  | .Global => 256

/-- HeapAlloc = Malloc | New | Calloc | StrDup | Realloc. -/
def HeapAllocMask : Nat := 1 ||| 2 ||| 4 ||| 8 ||| 16

/-- AnyAlloc = HeapAlloc | Alloca | Global. -/
def AnyAllocMask : Nat := HeapAllocMask ||| 128 ||| 256

/-- AnyFree = Free | Delete. -/
def AnyFreeMask : Nat := 32 ||| 64

/-- struct AllocInfo from Allocs.h.  The C++ field `Type` is called
`typ` here because `Type` is reserved in Lean.  `MembArg` is the index
of the per-element byte-size argument and `SizeArg` the index of the
element-count argument (cf. the built-in calloc entry {Calloc, 1, 0}:
calloc(nmemb, size) has nmemb at index 0 and size at index 1); -1
means absent. -/
structure AllocInfo where
  typ : AllocType
  MembArg : Int
  SizeArg : Int
  IsWrapper : Bool
deriving DecidableEq, Repr

/-- The allocator registry is a name-to-descriptor map.  std::map is
modelled as an association list with unique keys; lookup is by key, so
the list order only matters through `registryInsert` below. -/
abbrev Registry := List (String × AllocInfo)

/-- The built-in AllocFuncs table from Allocs.cpp, verbatim. -/
def allocFuncs : Registry := [
  ("malloc",                          ⟨.Malloc,  0, -1, false⟩),
  ("valloc",                          ⟨.Malloc,  0, -1, false⟩),
  ("pvalloc",                         ⟨.Malloc,  0, -1, false⟩),
  ("aligned_alloc",                   ⟨.Malloc,  1, -1, false⟩),
  ("memalign",                        ⟨.Malloc,  1, -1, false⟩),
  ("calloc",                          ⟨.Calloc,  1,  0, false⟩),
  ("realloc",                         ⟨.Realloc, 1, -1, false⟩),
  ("reallocf",                        ⟨.Realloc, 1, -1, false⟩),
  ("reallocarray",                    ⟨.Realloc, 2,  1, false⟩),
  ("_Znwj",                           ⟨.New,     0, -1, false⟩),
  ("_ZnwjRKSt9nothrow_t",             ⟨.Malloc,  0, -1, false⟩),
  ("_Znwm",                           ⟨.New,     0, -1, false⟩),
  ("_ZnwmRKSt9nothrow_t",             ⟨.Malloc,  0, -1, false⟩),
  ("_Znaj",                           ⟨.New,     0, -1, false⟩),
  ("_ZnajRKSt9nothrow_t",             ⟨.Malloc,  0, -1, false⟩),
  ("_Znam",                           ⟨.New,     0, -1, false⟩),
  ("_ZnamRKSt9nothrow_t",             ⟨.Malloc,  0, -1, false⟩),
  ("msvc_new_int",                    ⟨.New,     0, -1, false⟩),
  ("msvc_new_int_nothrow",            ⟨.Malloc,  0, -1, false⟩),
  ("msvc_new_longlong",               ⟨.New,     0, -1, false⟩),
  ("msvc_new_longlong_nothrow",       ⟨.Malloc,  0, -1, false⟩),
  ("msvc_new_array_int",              ⟨.New,     0, -1, false⟩),
  ("msvc_new_array_int_nothrow",      ⟨.Malloc,  0, -1, false⟩),
  ("msvc_new_array_longlong",         ⟨.New,     0, -1, false⟩),
  ("msvc_new_array_longlong_nothrow", ⟨.Malloc,  0, -1, false⟩),
  ("strdup",                          ⟨.StrDup, -1, -1, false⟩),
  ("strndup",                         ⟨.StrDup, -1, -1, false⟩),
  ("free",                            ⟨.Free,   -1, -1, false⟩)]

/-- std::map::insert semantics used by `AllocFuncs.insert(Val)`:
when the key is already present the map is left unchanged (the new
value is NOT stored); otherwise the pair is added. -/
def registryInsert (m : Registry) (kv : String × AllocInfo) : Registry :=
  if (m.lookup kv.1).isSome then m else m ++ [kv]

/-- static std::vector split(const std::string, char) from Allocs.cpp,
on the character list of the string: splits at every delimiter,
producing (number of delimiters + 1) parts. -/
def splitChars (delim : Char) : List Char → List (List Char)
  | [] => [[]]
  | c :: cs =>
    if c = delim then [] :: splitChars delim cs
    else
      match splitChars delim cs with
      | [] => [[c]]
      | p :: ps => (c :: p) :: ps

/-- String-level wrapper for `splitChars`. -/
def split (s : String) (delim : Char) : List String :=
  (splitChars delim s.data).map List.asString

/-- static bool parseInt(const std::string, int): stringstream integer
extraction.  Skips leading whitespace, accepts an optional sign and at
least one digit, ignores trailing characters; fails when no digit can
be extracted.  (Out-of-range values, which also fail in C++, are not
modelled: the embedded Int is unbounded.) -/
def parseInt (s : String) : Option Int :=
  let cs := s.data.dropWhile Char.isWhitespace
  let signAndRest : Bool × List Char :=
    match cs with
    | '-' :: t => (true, t)
    | '+' :: t => (false, t)
    | _ => (false, cs)
  let ds := signAndRest.2.takeWhile Char.isDigit
  if ds.isEmpty then none
  else
    let n : Nat := ds.foldl (fun a c => 10 * a + (c.toNat - 48)) 0
    some (if signAndRest.1 then -(n : Int) else (n : Int))

/-- The TypeMap of CustomAllocFuncParser::parse. -/
def typeMap : List (String × AllocType) := [
  ("malloc",  .Malloc),
  ("new",     .New),
  ("calloc",  .Calloc),
  ("strdup",  .StrDup),
  ("realloc", .Realloc),
  ("free",    .Free),
  ("delete",  .Delete),
  ("alloca",  .Alloca),
  ("global",  .Global)]

/-- TypeMap.find. -/
def typeLookup (s : String) : Option AllocType := typeMap.lookup s

/-- CustomAllocFuncParser::parse, the pure part: parses one descriptor
string of the form funcname:type:membarg[:membsizearg] into a
registry pair, or produces the O.error message.  Error messages follow
the C++ ones with the quoting characters omitted. -/
def parseFields (arg : String) (parts : List String) : Except String (String × AllocInfo) :=
  if parts.length < 3 ∨ 4 < parts.length then
    .error ("invalid custom allocator " ++ arg ++
      ", format should be <funcname>:<type>:<membarg>[:<membsizearg>]")
  else
    if parts.getD 0 "" = "" then
      .error ("empty function name in " ++ arg)
    else
      match typeLookup (parts.getD 1 "") with
      | none => .error ("invalid allocator type " ++ parts.getD 1 "" ++ " in " ++ arg)
      | some t =>
        match parseInt (parts.getD 2 "") with
        | none => .error ("invalid <membarg> " ++ parts.getD 2 "" ++ " in " ++ arg)
        | some memb =>
          if parts.length = 3 then
            .ok (parts.getD 0 "", ⟨t, memb, -1, true⟩)
          else
            match parseInt (parts.getD 3 "") with
            | none => .error ("invalid <membsizearg> " ++ parts.getD 3 "" ++ " in " ++ arg)
            | some szArg => .ok (parts.getD 0 "", ⟨t, memb, szArg, true⟩)

/-- The parser applied to the colon-separated fields of the
descriptor. -/
def parseCustomAllocFunc (arg : String) : Except String (String × AllocInfo) :=
  parseFields arg (split arg ':')

/-- CustomAllocFuncParser::parse including its effect on the global
AllocFuncs map: on success the parsed pair is inserted with
std::map::insert semantics; every error path returns before touching
the map. -/
def parseCustom (arg : String) (m : Registry) : Option String × Registry :=
  match parseCustomAllocFunc arg with
  | .error e => (some e, m)
  | .ok kv => (none, registryInsert m kv)

/-- AllocSite::UnknownSize = (uint64_t)(-1LL) = 2^64 - 1. -/
def UnknownSize : Nat := W - 1

/-- The IR value wrapped by an AllocSite, restricted to the three
shapes AllocSite::TryCreate recognises: a GlobalVariable (with the
data-layout store size of its pointee type), an AllocaInst (with the
data-layout alloc size of the allocated type and its array-size
operand), or a call (with callee name and argument operands). -/
inductive SiteVal where
  | global (pointeeStoreSize : Nat)
  | alloca (allocTySize : Nat) (arraySizeOp : IRValue)
  | call (callee : String) (args : List IRValue)
deriving DecidableEq, Repr

/-- struct AllocSite: the wrapped value plus its AllocInfo. -/
structure AllocSite where
  V : SiteVal
  Info : AllocInfo
deriving DecidableEq, Repr

/-- AllocSite::TryCreate: globals and allocas get fixed Global/Alloca
descriptors; a call is a site exactly when its callee name is found in
the registry; every other value shape yields none (that case is
represented by `BaseVal.otherVal` below, since this SiteVal type only
carries the recognisable shapes). -/
def TryCreate (regs : Registry) : SiteVal → Option AllocSite
  | .global n => some ⟨.global n, ⟨.Global, -1, -1, false⟩⟩
  | .alloca sz a => some ⟨.alloca sz a, ⟨.Alloca, -1, -1, false⟩⟩
  | .call f args =>
    match regs.lookup f with
    | some info => some ⟨.call f args, info⟩
    | none => none

/-- Bit test used by all the AllocSite::isX predicates
(Info.Type & Mask as a C truth value). -/
def testMask (t : AllocType) (mask : Nat) : Bool := (t.bits &&& mask) != 0

def AllocSite.isStrDup (s : AllocSite) : Bool := testMask s.Info.typ AllocType.StrDup.bits

def AllocSite.isStackAlloc (s : AllocSite) : Bool := testMask s.Info.typ AllocType.Alloca.bits

def AllocSite.isGlobalAlloc (s : AllocSite) : Bool := testMask s.Info.typ AllocType.Global.bits

def AllocSite.isHeapAlloc (s : AllocSite) : Bool := testMask s.Info.typ HeapAllocMask

def AllocSite.isAnyAlloc (s : AllocSite) : Bool := testMask s.Info.typ AnyAllocMask

def AllocSite.isAnyFree (s : AllocSite) : Bool := testMask s.Info.typ AnyFreeMask

/-- AllocaInst::isArrayAllocation: true iff the array-size operand is
not the constant 1. -/
def isArrayAllocation : IRValue → Bool
  | .constInt n => n != 1
  | .sym _ => true

/-- AllocSite::getSizeFactors.  Globals contribute the pointee store
size; allocas the allocated type size plus, for array allocations, the
array-size operand; calls contribute the SizeArg operand (if present)
followed by the MembArg operand (if present). -/
def AllocSite.getSizeFactors (s : AllocSite) : List IRValue :=
  if s.isGlobalAlloc then
    match s.V with
    | .global n => [.constInt n]
    | _ => []
  else if s.isStackAlloc then
    match s.V with
    | .alloca tySz arr => [.constInt tySz] ++ (if isArrayAllocation arr then [arr] else [])
    | _ => []
  else
    match s.V with
    | .call _ args =>
      (if 0 ≤ s.Info.SizeArg then [args.getD s.Info.SizeArg.toNat (.sym 0)] else []) ++
      (if 0 ≤ s.Info.MembArg then [args.getD s.Info.MembArg.toNat (.sym 0)] else [])
    | _ => []

/-- The folding loop of AllocSite::getConstSize: Size starts at 1 and
each ConstantInt factor is multiplied in with uint64_t wrap-around;
the first non-constant factor aborts with UnknownSize. -/
def constSizeLoop : List IRValue → Nat → Nat
  | [], acc => acc
  | .constInt c :: rest, acc => constSizeLoop rest (acc * (c % W) % W)
  | .sym _ :: _, _ => UnknownSize

/-- AllocSite::getConstSize. -/
def AllocSite.getConstSize (s : AllocSite) : Nat := constSizeLoop s.getSizeFactors 1

/-- Result of AllocSite::getOrInsertSize: nullptr, an existing value
(a constant from getSizeInt or a single factor returned directly), or
a freshly built multiply of the two factors. -/
inductive SizeRes where
  | noSize
  | val (v : IRValue)
  | mulInst (a b : IRValue)
deriving DecidableEq, Repr

/-- Message of the assert at the head of AllocSite::getOrInsertSize. -/
def assertMsgStrDup : String := "assertion failed: isAnyAlloc and not isStrDup"

/-- Message of the default branch of the factor-count switch in
AllocSite::getOrInsertSize. -/
def assertMsgFactors : String := "assertion failed: impossible number of factors"

/-- AllocSite::getOrInsertSize.  A violated assert is modelled as an
error value.  Mirrors the C++ exactly: the constant size is returned
when it differs from UnknownSize, otherwise the factor list decides
between nullptr, the single factor, and a synthesized multiply. -/
def AllocSite.getOrInsertSize (s : AllocSite) : Except String SizeRes :=
  if s.isAnyAlloc && !s.isStrDup then
    let constSize := s.getConstSize
    if constSize ≠ UnknownSize then .ok (.val (.constInt constSize))
    else
      match s.getSizeFactors with
      | [] => .ok .noSize
      | [a] => .ok (.val a)
      | [a, b] => .ok (.mulInst a b)
      | _ => .error assertMsgFactors
  else .error assertMsgStrDup

/- ---------------------------------------------------------------
   Bounds oracle: AllocsPass::computeSizeAndOffset / isInBoundsAccess
   --------------------------------------------------------------- -/

/-- A base (non-GEP) IR value: either one that the pass resolves to an
allocation site via getAllocSite, or any other value. -/
inductive BaseVal where
  | siteVal (s : AllocSite)
  | otherVal (id : Nat)
deriving DecidableEq, Repr

/-- A pointer expression as walked by
Value::stripAndAccumulateInBoundsConstantOffsets: a base value, an
in-bounds GEP whose indices are all constant (with its total byte
offset), or a GEP with a non-constant index or without the inbounds
flag (which the walk cannot strip). -/
inductive PtrExpr where
  | base (b : BaseVal)
  | gepConst (p : PtrExpr) (off : Int)
  | gepSym (p : PtrExpr)
deriving DecidableEq, Repr

/-- Accumulation of a byte offset into the 64-bit APInt Offset:
wrap-around two-sided addition modulo 2^64 on the raw bits. -/
def addWrap (acc : Nat) (d : Int) : Nat := (((acc : Int) + d) % (W : Int)).toNat

/-- Value::stripAndAccumulateInBoundsConstantOffsets: strips in-bounds
all-constant GEPs, accumulating their offsets, and stops at the first
base value or unstrippable GEP, returning the stopping value and the
accumulated offset bits. -/
def stripAccum : PtrExpr → Nat → PtrExpr × Nat
  | .base b, acc => (.base b, acc)
  | .gepConst p d, acc => stripAccum p (addWrap acc d)
  | .gepSym p, acc => (.gepSym p, acc)

/-- AllocsPass::getAllocSite on the stripped value: only base values
can resolve to a site (AllocSite::TryCreate yields nullptr on a GEP);
which base values resolve is encoded in BaseVal. -/
def getAllocSiteOf : PtrExpr → Option AllocSite
  | .base (.siteVal s) => some s
  | _ => none

/-- AllocsPass::computeSizeAndOffset.  The unknown result
(ObjectSizeOffsetVisitor::unknown, a pair of zero-width APInts
rejected by bothKnown) is modelled as none; a known result carries
(size, offset bits), both 64-bit. -/
def computeSizeAndOffset (addr : PtrExpr) : Option (Nat × Nat) :=
  match getAllocSiteOf (stripAccum addr 0).1 with
  | some a =>
    if a.getConstSize ≠ UnknownSize then some (a.getConstSize, (stripAccum addr 0).2)
    else none
  | none => none

/-- APInt::getSExtValue on 64-bit offset bits. -/
def sext64 (b : Nat) : Int := if b < 2 ^ 63 then (b : Int) else (b : Int) - (W : Int)

/-- uint64_t subtraction Size - uint64_t(Offset), wrap-around. -/
def subWrap (a b : Nat) : Nat := (a + W - b) % W

/-- AllocsPass::isInBoundsAccess: fail-closed bounds check.  Offset is
the sign-extended accumulated offset, compared as in the C++:
Offset >= 0, Size >= (uint64_t)Offset, Size - (uint64_t)Offset >= n. -/
def isInBoundsAccess (addr : PtrExpr) (accessedBytes : Nat) : Bool :=
  match computeSizeAndOffset addr with
  | none => false
  | some (size, offBits) =>
    decide (0 ≤ sext64 offBits)
    && decide ((sext64 offBits % (W : Int)).toNat ≤ size)
    && decide (accessedBytes ≤ subWrap size (sext64 offBits % (W : Int)).toNat)

end Allocs

/- ---------------------------------------------------------------
   llvm-passes/4.0.0 MemAccess.cpp / MemAccess.h
   --------------------------------------------------------------- -/

namespace MA4

/-- The instruction shapes distinguished by MemRead::Create and
MemWrite::Create (4.0.0).  Scalar shapes carry the pointer operand,
the data-layout store size of the accessed type, and the alignment
used by the corresponding constructor; mem intrinsics carry their
pointer operands, length operand and alignment. -/
inductive Instr where
  | load (ptr : IRValue) (storeSize align : Nat)
  | store (ptr : IRValue) (storeSize align : Nat)
  | cmpxchg (ptr : IRValue) (storeSize ptrAlign : Nat)
  | atomicrmw (ptr : IRValue) (storeSize ptrAlign : Nat)
  | memtransfer (dst src len : IRValue) (align : Nat)
  | memset (dst len : IRValue) (align : Nat)
  | other (id : Nat)
deriving DecidableEq, Repr

/-- class MemAccess (4.0.0): instruction, pointer, length value,
alignment and direction.  A default-constructed (invalid) MemAccess is
modelled as `none` at the use sites. -/
structure MemAccess where
  inst : Instr
  pointer : IRValue
  length : IRValue
  alignment : Nat
  isRead : Bool
deriving DecidableEq, Repr

/-- MemRead::Create: loads, memory transfers (source side), cmpxchg
and atomicrmw produce a read record; anything else gives the invalid
record. -/
def readCreate (i : Instr) : Option MemAccess :=
  match i with
  | .load p sz a => some ⟨i, p, .constInt sz, a, true⟩
  | .memtransfer _ src len a => some ⟨i, src, len, a, true⟩
  | .cmpxchg p sz a => some ⟨i, p, .constInt sz, a, true⟩
  | .atomicrmw p sz a => some ⟨i, p, .constInt sz, a, true⟩
  | _ => none

/-- MemWrite::Create: stores, mem intrinsics (destination side; this
covers both memset and memory transfers), cmpxchg and atomicrmw
produce a write record. -/
def writeCreate (i : Instr) : Option MemAccess :=
  match i with
  | .store p sz a => some ⟨i, p, .constInt sz, a, false⟩
  | .memtransfer dst _ len a => some ⟨i, dst, len, a, false⟩
  | .memset dst len a => some ⟨i, dst, len, a, false⟩
  | .cmpxchg p sz a => some ⟨i, p, .constInt sz, a, false⟩
  | .atomicrmw p sz a => some ⟨i, p, .constInt sz, a, false⟩
  | _ => none

/-- The records MemAccessIterator produces for one instruction: its
read record (if any) followed by its write record (if any). -/
def accessesOf (i : Instr) : List MemAccess :=
  (readCreate i).toList ++ (writeCreate i).toList

/-- MemAccessIterator state: the instructions from the cursor I up to
E, the triedRead flag, and the buffered current record (none models
the invalid MemAccess). -/
structure ItState where
  rest : List Instr
  triedRead : Bool
  ma : Option MemAccess
deriving DecidableEq, Repr

/-- Termination measure for iterator stepping: each do-while body
iteration either clears triedRead or advances the cursor. -/
def msr (s : ItState) : Nat := 2 * s.rest.length + s.triedRead.toNat

/-- The advancing portion of operator++: having exhausted the current
instruction, step the cursor through `r`, buffering the first valid
read (or, failing that, write) record of the next instruction and
skipping instructions with neither.  `m` is the stale buffered record,
kept when the cursor reaches E (the loop exits on atEnd without
overwriting it). -/
def skipTo (m : Option MemAccess) : List Instr → ItState
  | [] => ⟨[], false, m⟩
  | j :: r2 =>
    match readCreate j with
    | some a => ⟨j :: r2, true, some a⟩
    | none =>
      match writeCreate j with
      | some a => ⟨j :: r2, false, some a⟩
      | none => skipTo none r2

/-- MemAccessIterator::operator++ (the full do-while loop): if the
read of the current instruction was just tried, try its write; then
keep advancing until a valid record or the end. -/
def incr : ItState → ItState
  | ⟨[], t, m⟩ => ⟨[], t, m⟩
  | ⟨i :: r, true, _⟩ =>
    match writeCreate i with
    | some a => ⟨i :: r, false, some a⟩
    | none => skipTo none r
  | ⟨_ :: r, false, m⟩ => skipTo m r

/-- MemAccessIterator construction (advanceToFirstValidAccess): buffer
the read record of the first instruction, falling back to operator++
when it is invalid. -/
def itInit (l : List Instr) : ItState :=
  match l with
  | [] => ⟨[], true, none⟩
  | i :: r =>
    match readCreate i with
    | some a => ⟨i :: r, true, some a⟩
    | none => incr ⟨i :: r, true, none⟩

theorem skipTo_msr (m : Option MemAccess) (r : List Instr) :
    msr (skipTo m r) ≤ 2 * r.length + 1 := by
  induction r generalizing m with
  | nil => simp [skipTo, msr]
  | cons j r2 ih =>
    simp only [skipTo]
    cases hr : readCreate j with
    | some a => simp [msr]
    | none =>
      cases hw : writeCreate j with
      | some a => simp [msr]
      | none =>
        have h2 := ih none
        simp only [msr] at h2 ⊢
        simp only [List.length_cons]
        omega

theorem incr_msr (s : ItState) (h : s.rest ≠ []) : msr (incr s) < msr s := by
  match s with
  | ⟨[], t, m⟩ => exact absurd rfl h
  | ⟨i :: r, true, m⟩ =>
    simp only [incr]
    cases hw : writeCreate i with
    | some a => simp [msr]
    | none =>
      have h2 := skipTo_msr (none : Option MemAccess) r
      simp only [msr] at h2 ⊢
      simp only [List.length_cons]
      simp
      omega
  | ⟨i :: r, false, m⟩ =>
    simp only [incr]
    have h2 := skipTo_msr m r
    simp only [msr] at h2 ⊢
    simp only [List.length_cons]
    simp
    omega

/-- Driving the iterator to completion: emit the buffered record and
step, until the cursor reaches E. -/
def itRun (s : ItState) : List MemAccess :=
  match s with
  | ⟨[], _, _⟩ => []
  | ⟨_ :: _, _, none⟩ => []
  | ⟨i :: r, t, some a⟩ => a :: itRun (incr ⟨i :: r, t, some a⟩)
termination_by msr s
decreasing_by exact incr_msr _ (List.cons_ne_nil i r)

theorem skipTo_cons_eq_itInit (m : Option MemAccess) (j : Instr) (r2 : List Instr) :
    skipTo m (j :: r2) = itInit (j :: r2) := by
  simp only [skipTo, itInit, incr]

theorem itRun_skipTo (m : Option MemAccess) (r : List Instr) :
    itRun (skipTo m r) = itRun (itInit r) := by
  cases r with
  | nil => simp [skipTo, itInit, itRun]
  | cons j r2 => rw [skipTo_cons_eq_itInit]

theorem itRun_itInit_flatten (l : List Instr) :
    itRun (itInit l) = (l.map accessesOf).flatten := by
  induction l with
  | nil => simp [itInit, itRun]
  | cons i r ih =>
    rw [List.map_cons, List.flatten_cons, ← ih]
    cases hr : readCreate i with
    | some a =>
      have h1 : itInit (i :: r) = ⟨i :: r, true, some a⟩ := by simp [itInit, hr]
      cases hw : writeCreate i with
      | some b =>
        have h2 : incr (⟨i :: r, true, some a⟩ : ItState) = ⟨i :: r, false, some b⟩ := by
          simp [incr, hw]
        have h3 : incr (⟨i :: r, false, some b⟩ : ItState) = skipTo (some b) r := by
          simp [incr]
        rw [h1, itRun, h2, itRun, h3, itRun_skipTo]
        simp [accessesOf, hr, hw]
      | none =>
        have h2 : incr (⟨i :: r, true, some a⟩ : ItState) = skipTo none r := by
          simp [incr, hw]
        rw [h1, itRun, h2, itRun_skipTo]
        simp [accessesOf, hr, hw]
    | none =>
      cases hw : writeCreate i with
      | some b =>
        have h1 : itInit (i :: r) = ⟨i :: r, false, some b⟩ := by simp [itInit, incr, hr, hw]
        have h3 : incr (⟨i :: r, false, some b⟩ : ItState) = skipTo (some b) r := by
          simp [incr]
        rw [h1, itRun, h3, itRun_skipTo]
        simp [accessesOf, hr, hw]
      | none =>
        have h1 : itInit (i :: r) = skipTo none r := by simp [itInit, incr, hr, hw]
        rw [h1, itRun_skipTo]
        simp [accessesOf, hr, hw]

end MA4

/- ---------------------------------------------------------------
   llvm-passes/11.0.0 Analysis/MemAccess.cpp
   --------------------------------------------------------------- -/

namespace MA11

/-- The instruction shapes distinguished by MemAccess::get (11.0.0).
Memory transfers carry separate source and destination alignments
(getSourceAlignment / getDestAlignment); a call to memcmp carries its
two pointer arguments, the length argument and the two pointer
alignments. -/
inductive Instr where
  | load (ptr : IRValue) (storeSize align : Nat)
  | store (ptr : IRValue) (storeSize align : Nat)
  | cmpxchg (ptr : IRValue) (storeSize ptrAlign : Nat)
  | atomicrmw (ptr : IRValue) (storeSize ptrAlign : Nat)
  | memtransfer (dst src len : IRValue) (srcAlign dstAlign : Nat)
  | memset (dst len : IRValue) (dstAlign : Nat)
  | memcmpCall (p0 p1 len : IRValue) (align0 align1 : Nat)
  | other (id : Nat)
deriving DecidableEq, Repr

/-- class MemAccess (11.0.0 layout, same record fields as 4.0.0). -/
structure MemAccess where
  inst : Instr
  pointer : IRValue
  length : IRValue
  alignment : Nat
  isRead : Bool
deriving DecidableEq, Repr

/-- unsigned MemAccess::get(Instruction &, SmallVectorImpl &):
appends the access records of one instruction; modelled as the list of
appended records (the C++ return value is its length).
`detectMemCmp` is the -memaccess-memcmp option gating memcmp
recognition. -/
def MemAccessGet (detectMemCmp : Bool) (i : Instr) : List MemAccess :=
  match i with
  | .load p sz a => [⟨i, p, .constInt sz, a, true⟩]
  | .store p sz a => [⟨i, p, .constInt sz, a, false⟩]
  | .cmpxchg p sz a => [⟨i, p, .constInt sz, a, true⟩, ⟨i, p, .constInt sz, a, false⟩]
  | .atomicrmw p sz a => [⟨i, p, .constInt sz, a, true⟩, ⟨i, p, .constInt sz, a, false⟩]
  | .memtransfer dst src len sa da => [⟨i, src, len, sa, true⟩, ⟨i, dst, len, da, false⟩]
  | .memset dst len da => [⟨i, dst, len, da, false⟩]
  | .memcmpCall p0 p1 len a0 a1 =>
    if detectMemCmp then [⟨i, p0, len, a0, true⟩, ⟨i, p1, len, a1, true⟩] else []
  | .other _ => []

end MA11

/- ---------------------------------------------------------------
   Helper lemmas
   --------------------------------------------------------------- -/

namespace Allocs

theorem W_pos : 0 < W := by decide

theorem W_eq : W = 18446744073709551616 := by norm_num [W]

theorem pow63_eq : (2 : Nat) ^ 63 = 9223372036854775808 := by norm_num

/-- Folding only constant factors computes the wrap-around product. -/
theorem constSizeLoop_const (cs : List Nat) (acc : Nat) (hacc : acc < W) :
    constSizeLoop (cs.map IRValue.constInt) acc = acc * cs.prod % W := by
  induction cs generalizing acc with
  | nil => simp [constSizeLoop, Nat.mod_eq_of_lt hacc]
  | cons c cs ih =>
    simp only [List.map_cons, constSizeLoop, List.prod_cons]
    rw [ih (acc * (c % W) % W) (Nat.mod_lt _ W_pos), Nat.mod_mul_mod, ← Nat.mul_assoc]
    exact ((Nat.mod_modEq c W).mul_left acc).mul_right cs.prod

/-- A non-constant factor anywhere in the list forces UnknownSize. -/
theorem constSizeLoop_unknown (fs : List IRValue) (acc : Nat)
    (h : ∃ id, IRValue.sym id ∈ fs) : constSizeLoop fs acc = UnknownSize := by
  induction fs generalizing acc with
  | nil => obtain ⟨id, hid⟩ := h; cases hid
  | cons f fs ih =>
    obtain ⟨id, hid⟩ := h
    cases f with
    | constInt c =>
      cases hid with
      | tail _ hmem => exact ih _ ⟨id, hmem⟩
    | sym j => simp [constSizeLoop]

/-- The folding loop stays below 2^64. -/
theorem constSizeLoop_lt (fs : List IRValue) (acc : Nat) (hacc : acc < W) :
    constSizeLoop fs acc < W := by
  induction fs generalizing acc with
  | nil => simpa [constSizeLoop]
  | cons f fs ih =>
    cases f with
    | constInt c => exact ih _ (Nat.mod_lt _ W_pos)
    | sym j => simp [constSizeLoop, UnknownSize, W]

theorem getConstSize_lt (s : AllocSite) : s.getConstSize < W :=
  constSizeLoop_lt _ _ (by decide)

theorem addWrap_lt (acc : Nat) (d : Int) : addWrap acc d < W := by
  unfold addWrap
  rw [W_eq]
  push_cast
  omega

/-- The accumulated offset bits always stay below 2^64. -/
theorem stripAccum_lt (p : PtrExpr) (acc : Nat) (hacc : acc < W) :
    (stripAccum p acc).2 < W := by
  induction p generalizing acc with
  | base b => simpa [stripAccum]
  | gepConst q d ih => exact ih _ (addWrap_lt acc d)
  | gepSym q ih => simpa [stripAccum]

/-- Casting the sign-extended value back to uint64 recovers the bits. -/
theorem sext64_emod (b : Nat) (hb : b < W) :
    ((sext64 b) % (W : Int)).toNat = b := by
  rw [W_eq] at hb
  unfold sext64
  by_cases h : b < 2 ^ 63
  · rw [if_pos h, W_eq]
    rw [pow63_eq] at h
    push_cast
    omega
  · rw [if_neg h, W_eq]
    rw [pow63_eq] at h
    push_cast
    omega

/-- Sign extension is nonnegative exactly on bit patterns below 2^63,
where it is the identity. -/
theorem sext64_nonneg_iff (b : Nat) (hb : b < W) :
    (0 ≤ sext64 b ↔ b < 2 ^ 63) ∧ (b < 2 ^ 63 → (sext64 b).toNat = b) := by
  rw [W_eq] at hb
  unfold sext64
  by_cases h : b < 2 ^ 63
  · rw [if_pos h]
    rw [pow63_eq] at h ⊢
    refine ⟨⟨fun _ => h, fun _ => ?_⟩, fun _ => ?_⟩ <;> omega
  · rw [if_neg h, W_eq]
    rw [pow63_eq] at h ⊢
    refine ⟨⟨fun h2 => ?_, fun h2 => ?_⟩, fun h2 => ?_⟩ <;> omega

/-- Wrap-around subtraction agrees with truncated subtraction when no
borrow occurs. -/
theorem subWrap_eq (a b : Nat) (hb : b ≤ a) (ha : a < W) :
    subWrap a b = a - b := by
  unfold subWrap
  have h1 : a + W - b = (a - b) + W := by omega
  rw [h1, Nat.add_mod_right, Nat.mod_eq_of_lt (by omega)]

/-- Looking a key up after appending a fresh binding for it. -/
theorem lookup_append_fresh (m : Registry) (name : String) (info : AllocInfo)
    (h : m.lookup name = none) : (m ++ [(name, info)]).lookup name = some info := by
  induction m with
  | nil => simp [List.lookup]
  | cons kv t ih =>
    cases kv with
    | mk k v =>
      cases hk : (name == k) with
      | true => simp [List.lookup, hk] at h
      | false =>
        simp only [List.cons_append, List.lookup, hk] at h ⊢
        exact ih h

end Allocs

/- ---------------------------------------------------------------
   Claim theorems
   --------------------------------------------------------------- -/

namespace Claims

open Allocs

/-- C6: parsing the custom-wrapper descriptor string mypool:malloc:0
succeeds and registers an entry for function name mypool with category
Malloc, element-size argument index 0 (the MembArg field, cf. the
calloc entry where MembArg names the per-element size argument), no
element-count argument (SizeArg = -1), and IsWrapper = true; a
subsequent lookup of mypool returns exactly this descriptor. -/
theorem parse_mypool_descriptor :
    parseCustom "mypool:malloc:0" allocFuncs =
      (none, allocFuncs ++ [("mypool", ⟨.Malloc, 0, -1, true⟩)])
    ∧ (parseCustom "mypool:malloc:0" allocFuncs).2.lookup "mypool" =
        some ⟨.Malloc, 0, -1, true⟩ := by
  constructor
  · rfl
  · rfl

/-- C5 counterexample: registering a custom descriptor under the name
malloc, which is already present as a built-in, parses successfully
but leaves the registry unchanged (std::map::insert does not
overwrite), so the subsequent lookup still returns the built-in
descriptor and NOT the newly registered one — refuting the claim that
registration overwrites an existing mapping. -/
theorem register_no_overwrite_cex :
    parseCustom "malloc:calloc:1:0" allocFuncs = (none, allocFuncs)
    ∧ parseCustomAllocFunc "malloc:calloc:1:0" = .ok ("malloc", ⟨.Calloc, 1, 0, true⟩)
    ∧ (parseCustom "malloc:calloc:1:0" allocFuncs).2.lookup "malloc" =
        some ⟨.Malloc, 0, -1, false⟩
    ∧ (parseCustom "malloc:calloc:1:0" allocFuncs).2.lookup "malloc" ≠
        some ⟨.Calloc, 1, 0, true⟩ := by
  refine ⟨rfl, rfl, rfl, ?_⟩
  intro h
  rw [show (parseCustom "malloc:calloc:1:0" allocFuncs).2.lookup "malloc" =
      some (⟨.Malloc, 0, -1, false⟩ : AllocInfo) from rfl] at h
  simp at h

/-- C5 amended: registration inserts the name-to-descriptor mapping
only when the name is not yet present (a subsequent lookup then
returns the new descriptor); when the name is already present — e.g. a
built-in entry such as malloc — the existing descriptor is kept
unchanged and lookup keeps returning it. -/
theorem register_insert_semantics (m : Registry) (name : String) (info v : AllocInfo) :
    (m.lookup name = none →
      (registryInsert m (name, info)).lookup name = some info)
    ∧ (m.lookup name = some v → registryInsert m (name, info) = m)
    ∧ (∀ (arg : String) (kv : String × AllocInfo),
        parseCustomAllocFunc arg = .ok kv →
        parseCustom arg m = (none, registryInsert m kv)) := by
  refine ⟨fun h => ?_, fun h => ?_, fun arg kv h => ?_⟩
  · rw [registryInsert]
    rw [if_neg (by simp [h])]
    exact lookup_append_fresh m name info h
  · rw [registryInsert, if_pos (by simp [h])]
  · rw [parseCustom, h]

/-- C5 witness: concrete instances of the amended registration
semantics on the built-in table. -/
theorem register_insert_semantics_witness :
    (registryInsert allocFuncs ("mypool", ⟨.Malloc, 0, -1, true⟩)).lookup "mypool" =
      some ⟨.Malloc, 0, -1, true⟩
    ∧ registryInsert allocFuncs ("malloc", ⟨.Calloc, 1, 0, true⟩) = allocFuncs := by
  constructor
  · exact (register_insert_semantics allocFuncs "mypool" ⟨.Malloc, 0, -1, true⟩
      ⟨.Malloc, 0, -1, true⟩).1 (by decide)
  · exact (register_insert_semantics allocFuncs "malloc" ⟨.Calloc, 1, 0, true⟩
      ⟨.Malloc, 0, -1, false⟩).2.1 (by decide)

end Claims

namespace Allocs

/-- The malformed-descriptor conditions of CLAIMS C7, phrased on the
embedded parser: wrong number of colon-separated fields, empty
function name, unknown category token, or a non-integer (by
stringstream extraction) argument index. -/
def malformedDescr (arg : String) : Prop :=
  (split arg ':').length < 3 ∨ 4 < (split arg ':').length ∨
  (split arg ':').getD 0 "" = "" ∨
  typeLookup ((split arg ':').getD 1 "") = none ∨
  parseInt ((split arg ':').getD 2 "") = none ∨
  ((split arg ':').length = 4 ∧ parseInt ((split arg ':').getD 3 "") = none)

instance (arg : String) : Decidable (malformedDescr arg) := by
  unfold malformedDescr
  infer_instance

/-- Every error message produced by the descriptor parser embeds the
whole offending descriptor string. -/
theorem parse_error_contains (arg msg : String)
    (h : parseCustomAllocFunc arg = .error msg) : ∃ p q, msg = p ++ arg ++ q := by
  unfold parseCustomAllocFunc parseFields at h
  split at h
  · injection h with h2
    exact ⟨"invalid custom allocator ",
      ", format should be <funcname>:<type>:<membarg>[:<membsizearg>]", h2.symm⟩
  · split at h
    · injection h with h2
      refine ⟨"empty function name in ", "", ?_⟩
      rw [← h2]
      simp
    · split at h
      · injection h with h2
        refine ⟨"invalid allocator type " ++ (split arg ':').getD 1 "" ++ " in ", "", ?_⟩
        rw [← h2]
        simp
      · split at h
        · injection h with h2
          refine ⟨"invalid <membarg> " ++ (split arg ':').getD 2 "" ++ " in ", "", ?_⟩
          rw [← h2]
          simp
        · split at h
          · cases h
          · split at h
            · injection h with h2
              refine ⟨"invalid <membsizearg> " ++ (split arg ':').getD 3 "" ++ " in ", "", ?_⟩
              rw [← h2]
              simp
            · cases h

/-- A descriptor that parses successfully satisfies none of the
malformedness conditions. -/
theorem parse_ok_not_malformed (arg : String) (kv : String × AllocInfo)
    (h : parseCustomAllocFunc arg = .ok kv) : ¬ malformedDescr arg := by
  unfold parseCustomAllocFunc parseFields at h
  split at h
  · cases h
  · split at h
    · cases h
    · split at h
      · cases h
      · split at h
        · cases h
        · split at h
          · intro hmal
            rcases hmal with hc | hc | hc | hc | hc | ⟨hc4, hc3⟩ <;>
              first
                | omega
                | simp_all
          · split at h
            · cases h
            · intro hmal
              rcases hmal with hc | hc | hc | hc | hc | ⟨hc4, hc3⟩ <;>
                first
                  | omega
                  | simp_all

end Allocs

namespace Claims

open Allocs

/-- C7: for every malformed custom-wrapper descriptor string — wrong
number of colon-separated fields, empty function name, unknown
category token, or a non-integer argument index — parsing reports a
descriptive error embedding the offending descriptor (and, for an
unknown category, the offending category token) and returns without
mutating the allocator registry. -/
theorem parse_malformed_rejected (arg : String) (m : Registry)
    (h : malformedDescr arg) :
    (∃ msg, parseCustom arg m = (some msg, m) ∧ ∃ p q, msg = p ++ arg ++ q)
    ∧ (¬ ((split arg ':').length < 3 ∨ 4 < (split arg ':').length) →
       (split arg ':').getD 0 "" ≠ "" →
       typeLookup ((split arg ':').getD 1 "") = none →
       ∃ msg, parseCustom arg m = (some msg, m) ∧
         ∃ p q, msg = p ++ (split arg ':').getD 1 "" ++ q) := by
  constructor
  · cases hp : parseCustomAllocFunc arg with
    | ok kv => exact absurd h (parse_ok_not_malformed arg kv hp)
    | error msg =>
      refine ⟨msg, ?_, parse_error_contains arg msg hp⟩
      rw [parseCustom, hp]
  · intro h1 h2 ht
    have hp : parseCustomAllocFunc arg =
        .error ("invalid allocator type " ++ (split arg ':').getD 1 "" ++ " in " ++ arg) := by
      unfold parseCustomAllocFunc parseFields
      rw [if_neg h1, if_neg h2, ht]
    refine ⟨"invalid allocator type " ++ (split arg ':').getD 1 "" ++ " in " ++ arg, ?_,
      "invalid allocator type ", " in " ++ arg, ?_⟩
    · rw [parseCustom, hp]
    · simp [String.append_assoc]

/-- C7 witness: the concrete malformed descriptor bad:unknownkind:0 is
rejected with an error naming both the descriptor and the unknown
category token, leaving the registry untouched. -/
theorem parse_malformed_rejected_witness :
    malformedDescr "bad:unknownkind:0"
    ∧ (∃ msg, parseCustom "bad:unknownkind:0" allocFuncs = (some msg, allocFuncs) ∧
        ∃ p q, msg = p ++ "bad:unknownkind:0" ++ q)
    ∧ (∃ msg, parseCustom "bad:unknownkind:0" allocFuncs = (some msg, allocFuncs) ∧
        ∃ p q, msg = p ++ (split "bad:unknownkind:0" ':').getD 1 "" ++ q) := by
  refine ⟨by decide, ?_, ?_⟩
  · exact (parse_malformed_rejected "bad:unknownkind:0" allocFuncs (by decide)).1
  · exact (parse_malformed_rejected "bad:unknownkind:0" allocFuncs (by decide)).2
      (by decide) (by decide) (by decide)

end Claims

namespace Allocs

/-- A malloc call of 16 bytes, used by the bounds-oracle examples. -/
def mallocSite16 : AllocSite := ⟨.call "malloc" [.constInt 16], ⟨.Malloc, 0, -1, false⟩⟩

/-- A stack array allocation with element size 2^32 and constant
element count 2^32, whose true byte size 2^64 overflows uint64. -/
def bigStackSite : AllocSite := ⟨.alloca (2 ^ 32) (.constInt (2 ^ 32)), ⟨.Alloca, -1, -1, false⟩⟩

/-- A strdup call site as created from the built-in table. -/
def strdupSiteEx : AllocSite := ⟨.call "strdup" [.sym 0], ⟨.StrDup, -1, -1, false⟩⟩

/-- A custom-registered malloc-category wrapper with no size-relevant
arguments: its size-factor list is empty but it is not StrDup. -/
def emptyFactorMallocSite : AllocSite := ⟨.call "mypool0" [], ⟨.Malloc, -1, -1, true⟩⟩

/-- A malloc call whose size argument is not a compile-time constant. -/
def mallocSymSite : AllocSite := ⟨.call "malloc" [.sym 7], ⟨.Malloc, 0, -1, false⟩⟩

/-- A heap category never has the Global or Alloca bit. -/
theorem heap_not_global_stack (t : AllocType) (h : testMask t HeapAllocMask = true) :
    testMask t AllocType.Global.bits = false ∧ testMask t AllocType.Alloca.bits = false := by
  cases t <;> revert h <;> decide

/-- Size factors of a stack allocation site. -/
theorem getSizeFactors_alloca (sz : Nat) (v : IRValue) :
    (AllocSite.mk (.alloca sz v) ⟨.Alloca, -1, -1, false⟩).getSizeFactors
      = IRValue.constInt sz :: (if isArrayAllocation v then [v] else []) := by
  rw [AllocSite.getSizeFactors]
  have hg : (AllocSite.mk (.alloca sz v) ⟨.Alloca, -1, -1, false⟩).isGlobalAlloc = false := by
    simp only [AllocSite.isGlobalAlloc, testMask, AllocType.bits]
    decide
  have hs : (AllocSite.mk (.alloca sz v) ⟨.Alloca, -1, -1, false⟩).isStackAlloc = true := by
    simp only [AllocSite.isStackAlloc, testMask, AllocType.bits]
    decide
  rw [hg, hs]
  simp

/-- Size factors of a heap call site with both argument indices
absent: the empty list. -/
theorem getSizeFactors_call_absent (f : String) (args : List IRValue) (info : AllocInfo)
    (hg : testMask info.typ AllocType.Global.bits = false)
    (hs : testMask info.typ AllocType.Alloca.bits = false)
    (hm : info.MembArg < 0) (hsa : info.SizeArg < 0) :
    (AllocSite.mk (.call f args) info).getSizeFactors = [] := by
  unfold AllocSite.getSizeFactors
  simp only [AllocSite.isGlobalAlloc, AllocSite.isStackAlloc] at *
  rw [hg, hs]
  simp only [Bool.false_eq_true, if_false]
  rw [if_neg (by omega), if_neg (by omega)]
  rfl

end Allocs

namespace Claims

open Allocs

/-- C9: a heap allocation site whose descriptor has neither an
element-count nor an element-size argument index (the StrDup category,
as produced for strdup and strndup by the built-in table) has an empty
size-factor list, so getConstSize returns the empty product 1 — not
the UnknownSize sentinel — and the bounds oracle proves a 1-byte
access at offset 0 through such a pointer in bounds. -/
theorem strdup_empty_product_one :
    (∀ (f : String) (args : List IRValue) (info : AllocInfo),
      info.typ = .StrDup → info.MembArg < 0 → info.SizeArg < 0 →
      (AllocSite.mk (.call f args) info).getConstSize = 1
      ∧ (AllocSite.mk (.call f args) info).getConstSize ≠ UnknownSize
      ∧ isInBoundsAccess (.base (.siteVal (AllocSite.mk (.call f args) info))) 1 = true)
    ∧ allocFuncs.lookup "strdup" = some ⟨.StrDup, -1, -1, false⟩
    ∧ allocFuncs.lookup "strndup" = some ⟨.StrDup, -1, -1, false⟩
    ∧ (∀ args : List IRValue, TryCreate allocFuncs (.call "strdup" args) =
        some ⟨.call "strdup" args, ⟨.StrDup, -1, -1, false⟩⟩) := by
  refine ⟨?_, rfl, rfl, fun args => rfl⟩
  intro f args info hty hm hsa
  have hmask := heap_not_global_stack info.typ (by rw [hty]; decide)
  have hf := getSizeFactors_call_absent f args info hmask.1 hmask.2 hm hsa
  have hc : (AllocSite.mk (.call f args) info).getConstSize = 1 := by
    rw [AllocSite.getConstSize, hf]
    rfl
  refine ⟨hc, by rw [hc]; decide, ?_⟩
  have hcs : computeSizeAndOffset (.base (.siteVal (AllocSite.mk (.call f args) info)))
      = some (1, 0) := by
    unfold computeSizeAndOffset
    simp only [stripAccum, getAllocSiteOf]
    rw [hc]
    norm_num [UnknownSize, W]
  rw [isInBoundsAccess, hcs]
  decide

/-- C9 witness: the concrete strdup site built from the registry. -/
theorem strdup_empty_product_one_witness :
    strdupSiteEx.getConstSize = 1
    ∧ isInBoundsAccess (.base (.siteVal strdupSiteEx)) 1 = true := by
  have h := strdup_empty_product_one.1 "strdup" [.sym 0] ⟨.StrDup, -1, -1, false⟩
    rfl (by decide) (by decide)
  exact ⟨h.1, h.2.2⟩

/-- C2 counterexample: a stack array allocation with constant element
size 2^32 and constant element count 2^32 has all-constant size
factors, but getConstSize returns the uint64-wrapped product 0, not
the exact product 2^64 — refuting the claim as stated. -/
theorem getConstSize_exact_product_cex :
    bigStackSite.getSizeFactors = [.constInt (2 ^ 32), .constInt (2 ^ 32)]
    ∧ bigStackSite.getConstSize = 0
    ∧ bigStackSite.getConstSize ≠ 2 ^ 32 * 2 ^ 32 := by
  refine ⟨by decide, by decide, ?_⟩
  intro h
  rw [show bigStackSite.getConstSize = 0 by decide] at h
  norm_num at h

/-- C2 amended: when every size factor is a compile-time constant,
getConstSize returns their product reduced modulo 2^64 (hence the
exact product whenever it fits in 64 bits); a stack array allocation
with constant element size S and count N yields (S * N) mod 2^64, in
particular 0 for N = 0, without any failure; and any non-constant
factor makes the result the UnknownSize sentinel. -/
theorem getConstSize_wraparound :
    (∀ (s : AllocSite) (cs : List Nat),
      s.getSizeFactors = cs.map IRValue.constInt →
      s.getConstSize = cs.prod % W)
    ∧ (∀ (s : AllocSite) (id : Nat), IRValue.sym id ∈ s.getSizeFactors →
      s.getConstSize = UnknownSize)
    ∧ (∀ sz n : Nat,
      (AllocSite.mk (.alloca sz (.constInt n)) ⟨.Alloca, -1, -1, false⟩).getConstSize
        = sz * n % W)
    ∧ (∀ sz : Nat,
      (AllocSite.mk (.alloca sz (.constInt 0)) ⟨.Alloca, -1, -1, false⟩).getConstSize = 0) := by
  have hconst : ∀ (s : AllocSite) (cs : List Nat),
      s.getSizeFactors = cs.map IRValue.constInt → s.getConstSize = cs.prod % W := by
    intro s cs h
    rw [AllocSite.getConstSize, h, constSizeLoop_const cs 1 (by decide), Nat.one_mul]
  have hstack : ∀ sz n : Nat,
      (AllocSite.mk (.alloca sz (.constInt n)) ⟨.Alloca, -1, -1, false⟩).getConstSize
        = sz * n % W := by
    intro sz n
    have hfac := getSizeFactors_alloca sz (.constInt n)
    by_cases hn : n = 1
    · subst hn
      rw [show isArrayAllocation (IRValue.constInt 1) = false from rfl] at hfac
      simp only [Bool.false_eq_true, if_false] at hfac
      have h := hconst _ [sz] (by rw [hfac]; rfl)
      rw [h]
      simp
    · have ha : isArrayAllocation (IRValue.constInt n) = true := by
        simp only [isArrayAllocation]
        simpa using hn
      rw [ha] at hfac
      simp only [if_pos] at hfac
      have h := hconst _ [sz, n] (by rw [hfac]; rfl)
      rw [h]
      simp
  refine ⟨hconst, ?_, hstack, fun sz => by rw [hstack sz 0]; simp⟩
  intro s id h
  rw [AllocSite.getConstSize]
  exact constSizeLoop_unknown _ _ ⟨id, h⟩

/-- C2 witness: concrete instances of the amended statement — an
all-constant malloc site folds exactly, a 3-element stack array of
4-byte elements folds to 12, the N = 0 stack array folds to 0, and a
non-constant malloc argument yields UnknownSize. -/
theorem getConstSize_wraparound_witness :
    mallocSite16.getConstSize = 16 % W
    ∧ (AllocSite.mk (.alloca 4 (.constInt 3)) ⟨.Alloca, -1, -1, false⟩).getConstSize = 12 % W
    ∧ (AllocSite.mk (.alloca 8 (.constInt 0)) ⟨.Alloca, -1, -1, false⟩).getConstSize = 0
    ∧ mallocSymSite.getConstSize = UnknownSize := by
  refine ⟨?_, ?_, ?_, ?_⟩
  · exact getConstSize_wraparound.1 mallocSite16 [16] (by decide)
  · have h := getConstSize_wraparound.2.2.1 4 3
    simpa using h
  · exact getConstSize_wraparound.2.2.2 8
  · exact getConstSize_wraparound.2.1 mallocSymSite 7 (by decide)

/-- C8 counterexample: on a strdup-category site (empty size-factor
list) getOrInsertSize trips its assertion (isAnyAlloc and not
isStrDup) instead of returning the no-size result; and on a
non-StrDup empty-factor site it returns the placeholder constant 1,
not the no-size result — refuting both parts of the claim. -/
theorem getOrInsertSize_emptyfactors_cex :
    strdupSiteEx.getSizeFactors = []
    ∧ strdupSiteEx.getOrInsertSize = .error assertMsgStrDup
    ∧ strdupSiteEx.getOrInsertSize ≠ .ok .noSize
    ∧ emptyFactorMallocSite.getSizeFactors = []
    ∧ emptyFactorMallocSite.getOrInsertSize = .ok (.val (.constInt 1))
    ∧ emptyFactorMallocSite.getOrInsertSize ≠ .ok .noSize := by
  refine ⟨by decide, by rfl, ?_, by decide, by rfl, ?_⟩
  · intro h
    rw [show strdupSiteEx.getOrInsertSize = .error assertMsgStrDup from rfl] at h
    cases h
  · intro h
    rw [show emptyFactorMallocSite.getOrInsertSize = .ok (.val (.constInt 1)) from rfl] at h
    injection h with h2
    cases h2

/-- C8 amended: for an allocation site with an empty size-factor list,
getConstSize is the empty product 1 (not UnknownSize), so
getOrInsertSize never reaches its zero-factor nullptr branch: on a
StrDup site it fails the precondition assertion, and on any other
allocation site it returns the constant 1. -/
theorem getOrInsertSize_emptyfactors (s : AllocSite)
    (hf : s.getSizeFactors = []) (ha : s.isAnyAlloc = true) :
    s.getConstSize = 1
    ∧ (s.isStrDup = true → s.getOrInsertSize = .error assertMsgStrDup)
    ∧ (s.isStrDup = false → s.getOrInsertSize = .ok (.val (.constInt 1))) := by
  have hc : s.getConstSize = 1 := by rw [AllocSite.getConstSize, hf]; rfl
  refine ⟨hc, fun hsd => ?_, fun hsd => ?_⟩
  · rw [AllocSite.getOrInsertSize, if_neg (by simp [ha, hsd])]
  · rw [AllocSite.getOrInsertSize, if_pos (by simp [ha, hsd])]
    rw [if_pos (by rw [hc]; decide)]
    rw [hc]

/-- C8 witness: the amended statement at the concrete strdup and
custom empty-factor sites. -/
theorem getOrInsertSize_emptyfactors_witness :
    strdupSiteEx.getOrInsertSize = .error assertMsgStrDup
    ∧ emptyFactorMallocSite.getOrInsertSize = .ok (.val (.constInt 1)) := by
  constructor
  · exact (getOrInsertSize_emptyfactors strdupSiteEx (by decide) (by decide)).2.1 (by decide)
  · exact (getOrInsertSize_emptyfactors emptyFactorMallocSite (by decide)
      (by decide)).2.2 (by decide)

/-- C10: getConstSize multiplies constant factors in 64-bit
wrap-around arithmetic with UnknownSize = 2^64 - 1 as sentinel: an
all-constant factor list folds to the product modulo 2^64 (so a true
product of 2^64 or more wraps instead of becoming Unknown), and a
result equal to the sentinel is treated as unknown by both callers —
computeSizeAndOffset returns the unknown pair and getOrInsertSize
falls through to the symbolic path instead of returning a constant. -/
theorem getConstSize_mod64_sentinel :
    UnknownSize = 2 ^ 64 - 1 ∧ W = 2 ^ 64
    ∧ (∀ (s : AllocSite) (cs : List Nat),
        s.getSizeFactors = cs.map IRValue.constInt →
        s.getConstSize = cs.prod % W)
    ∧ bigStackSite.getConstSize = 2 ^ 32 * 2 ^ 32 % W
    ∧ bigStackSite.getConstSize ≠ UnknownSize
    ∧ (∀ s : AllocSite, s.getConstSize = UnknownSize →
        computeSizeAndOffset (.base (.siteVal s)) = none)
    ∧ (∀ s : AllocSite, s.isAnyAlloc = true → s.isStrDup = false →
        s.getConstSize = UnknownSize →
        s.getOrInsertSize = (match s.getSizeFactors with
          | [] => .ok .noSize
          | [a] => .ok (.val a)
          | [a, b] => .ok (.mulInst a b)
          | _ :: _ :: _ :: _ => .error assertMsgFactors)) := by
  refine ⟨rfl, rfl, ?_, ?_, by decide, ?_, ?_⟩
  · intro s cs h
    rw [AllocSite.getConstSize, h, constSizeLoop_const cs 1 (by decide), Nat.one_mul]
  · have h := getConstSize_wraparound.1 bigStackSite [2 ^ 32, 2 ^ 32] (by decide)
    simpa using h
  · intro s h
    unfold computeSizeAndOffset
    simp only [stripAccum, getAllocSiteOf]
    rw [if_neg (by simp [h])]
  · intro s ha hsd h
    rw [AllocSite.getOrInsertSize, if_pos (by simp [ha, hsd]), if_neg (by simp [h])]
    cases hsf : s.getSizeFactors with
    | nil => rfl
    | cons a t =>
      cases t with
      | nil => rfl
      | cons b t2 =>
        cases t2 with
        | nil => rfl
        | cons c t3 => rfl

/-- C10 witness: concrete instances — the overflowing stack array
wraps to 0; a malloc call with a non-constant size argument has
UnknownSize, which computeSizeAndOffset reports as unknown and
getOrInsertSize passes through as the single symbolic factor. -/
theorem getConstSize_mod64_sentinel_witness :
    bigStackSite.getConstSize = 0
    ∧ computeSizeAndOffset (.base (.siteVal mallocSymSite)) = none
    ∧ mallocSymSite.getOrInsertSize = .ok (.val (.sym 7)) := by
  refine ⟨?_, ?_, ?_⟩
  · have h := getConstSize_mod64_sentinel.2.2.2.1
    rw [h]
    decide
  · exact getConstSize_mod64_sentinel.2.2.2.2.2.1 mallocSymSite (by decide)
  · have h := getConstSize_mod64_sentinel.2.2.2.2.2.2 mallocSymSite
      (by decide) (by decide) (by decide)
    rw [h]
    rfl

/-- C1: isInBoundsAccess(p, n) is true exactly when stripping
constant-offset in-bounds address arithmetic from p reaches a base
that resolves to a known allocation site with known constant size S
and accumulated constant offset O (sign-extended from the 64-bit
accumulator) such that O is nonnegative, S is at least O and S - O is
at least n as unsigned values; an unresolvable base, an Unknown size,
or a non-constant offset in the chain (which stops the strip at a GEP,
never an allocation site) all give false.  The 16-byte example: offset
10 admits a 6-byte access but not a 7-byte one, and a non-constant
offset is rejected for every n. -/
theorem isInBoundsAccess_characterization :
    (∀ (addr : PtrExpr) (n : Nat),
      isInBoundsAccess addr n = true ↔
        (∃ s : AllocSite,
          getAllocSiteOf (stripAccum addr 0).1 = some s
          ∧ s.getConstSize ≠ UnknownSize
          ∧ 0 ≤ sext64 (stripAccum addr 0).2
          ∧ (sext64 (stripAccum addr 0).2).toNat ≤ s.getConstSize
          ∧ n ≤ s.getConstSize - (sext64 (stripAccum addr 0).2).toNat))
    ∧ isInBoundsAccess (.gepConst (.base (.siteVal mallocSite16)) 10) 6 = true
    ∧ isInBoundsAccess (.gepConst (.base (.siteVal mallocSite16)) 10) 7 = false
    ∧ (∀ n : Nat, isInBoundsAccess (.gepSym (.base (.siteVal mallocSite16))) n = false) := by
  refine ⟨?_, by decide, by decide, fun n => rfl⟩
  intro addr n
  have hoff : (stripAccum addr 0).2 < W := stripAccum_lt addr 0 (by decide)
  cases hsite : getAllocSiteOf (stripAccum addr 0).1 with
  | none =>
    have hc : computeSizeAndOffset addr = none := by
      simp only [computeSizeAndOffset, hsite]
    simp only [isInBoundsAccess, hc]
    constructor
    · intro h; cases h
    · rintro ⟨s2, hs2, -⟩
      cases hs2
  | some s =>
    by_cases hu : s.getConstSize = UnknownSize
    · have hc : computeSizeAndOffset addr = none := by
        simp only [computeSizeAndOffset, hsite]
        rw [if_neg (by simp [hu])]
      simp only [isInBoundsAccess, hc]
      constructor
      · intro h; cases h
      · rintro ⟨s2, hs2, hne, -⟩
        injection hs2 with hs2
        exact absurd (hs2 ▸ hu) hne
    · have hc : computeSizeAndOffset addr = some (s.getConstSize, (stripAccum addr 0).2) := by
        simp only [computeSizeAndOffset, hsite]
        rw [if_pos hu]
      simp only [isInBoundsAccess, hc]
      have hemod := sext64_emod (stripAccum addr 0).2 hoff
      rw [hemod]
      simp only [Bool.and_eq_true, decide_eq_true_eq]
      constructor
      · rintro ⟨⟨h1, h2⟩, h3⟩
        have hlt := ((sext64_nonneg_iff (stripAccum addr 0).2 hoff).1).mp h1
        have htn := (sext64_nonneg_iff (stripAccum addr 0).2 hoff).2 hlt
        refine ⟨s, rfl, hu, h1, ?_, ?_⟩
        · rw [htn]; exact h2
        · rw [htn, ← subWrap_eq s.getConstSize (stripAccum addr 0).2 h2 (getConstSize_lt s)]
          exact h3
      · rintro ⟨s2, hs2, hne, h1, h2, h3⟩
        injection hs2 with hs2
        subst hs2
        have hlt := ((sext64_nonneg_iff (stripAccum addr 0).2 hoff).1).mp h1
        have htn := (sext64_nonneg_iff (stripAccum addr 0).2 hoff).2 hlt
        rw [htn] at h2 h3
        refine ⟨⟨h1, h2⟩, ?_⟩
        rw [subWrap_eq s.getConstSize (stripAccum addr 0).2 h2 (getConstSize_lt s)]
        exact h3

/-- C4: the memory-access iterator is deterministic — rebuilding it
over the same (unmutated) instruction sequence yields the identical
ordered record sequence — and that sequence is exactly the
concatenation, in program order, of each instruction records (read
first, then write), so instructions with no records are skipped and
the two records of an atomic cmpxchg/rmw operation are adjacent and
ordered read-then-write. -/
theorem memaccess_iterator_idempotent :
    (∀ l : List MA4.Instr, MA4.itRun (MA4.itInit l) = MA4.itRun (MA4.itInit l))
    ∧ (∀ l : List MA4.Instr, MA4.itRun (MA4.itInit l) = (l.map MA4.accessesOf).flatten)
    ∧ (∀ (p : IRValue) (sz al : Nat),
        MA4.accessesOf (.cmpxchg p sz al) =
          [⟨.cmpxchg p sz al, p, .constInt sz, al, true⟩,
           ⟨.cmpxchg p sz al, p, .constInt sz, al, false⟩])
    ∧ (∀ (p : IRValue) (sz al : Nat),
        MA4.accessesOf (.atomicrmw p sz al) =
          [⟨.atomicrmw p sz al, p, .constInt sz, al, true⟩,
           ⟨.atomicrmw p sz al, p, .constInt sz, al, false⟩])
    ∧ (∀ id : Nat, MA4.accessesOf (.other id) = []) :=
  ⟨fun _ => rfl, MA4.itRun_itInit_flatten,
   fun _ _ _ => rfl, fun _ _ _ => rfl, fun _ => rfl⟩

/-- C3: classifying a block-copy (memory-transfer) operation with
source distinct from destination yields exactly two records — a read
of the source pointer and a write of the destination pointer, both
carrying the operation length operand — and classifying a block-set
operation yields exactly one write record; this holds in the 11.0.0
MemAccess::get classifier and in the 4.0.0 MemRead/MemWrite::Create
pair. -/
theorem classify_blockcopy_blockset (dm : Bool) (dst src len : IRValue) (sa da : Nat)
    (hne : src ≠ dst) :
    (MA11.MemAccessGet dm (.memtransfer dst src len sa da)).length = 2
    ∧ MA11.MemAccessGet dm (.memtransfer dst src len sa da) =
        [⟨.memtransfer dst src len sa da, src, len, sa, true⟩,
         ⟨.memtransfer dst src len sa da, dst, len, da, false⟩]
    ∧ (∀ (d2 l2 : IRValue) (da2 : Nat),
        MA11.MemAccessGet dm (.memset d2 l2 da2) =
          [⟨.memset d2 l2 da2, d2, l2, da2, false⟩])
    ∧ (∀ al : Nat, MA4.accessesOf (.memtransfer dst src len al) =
        [⟨.memtransfer dst src len al, src, len, al, true⟩,
         ⟨.memtransfer dst src len al, dst, len, al, false⟩])
    ∧ (∀ (d2 l2 : IRValue) (al : Nat), MA4.accessesOf (.memset d2 l2 al) =
        [⟨.memset d2 l2 al, d2, l2, al, false⟩]) :=
  ⟨rfl, rfl, fun _ _ _ => rfl, fun _ => rfl, fun _ _ _ => rfl⟩

/-- C3 witness: a concrete 8-byte block copy between two distinct
pointers and a concrete block set. -/
theorem classify_blockcopy_blockset_witness :
    (MA11.MemAccessGet false (.memtransfer (.sym 1) (.sym 0) (.constInt 8) 4 8)).length = 2
    ∧ MA11.MemAccessGet false (.memtransfer (.sym 1) (.sym 0) (.constInt 8) 4 8) =
        [⟨.memtransfer (.sym 1) (.sym 0) (.constInt 8) 4 8, .sym 0, .constInt 8, 4, true⟩,
         ⟨.memtransfer (.sym 1) (.sym 0) (.constInt 8) 4 8, .sym 1, .constInt 8, 8, false⟩]
    ∧ MA11.MemAccessGet false (.memset (.sym 2) (.constInt 16) 4) =
        [⟨.memset (.sym 2) (.constInt 16) 4, .sym 2, .constInt 16, 4, false⟩] := by
  have h := classify_blockcopy_blockset false (.sym 1) (.sym 0) (.constInt 8) 4 8 (by decide)
  exact ⟨h.1, h.2.1, h.2.2.1 (.sym 2) (.constInt 16) 4⟩

end Claims

end InstrInfra
